import Mathlib

/-!
Verification development for the tiny-agent repository.

The Python sources under `src/tiny_agent/core/` are shallowly embedded
here: Python strings become `List Char`, mutable objects become explicit
state values, exceptions become `Except`, and functions that perform
real I/O (file system, subprocess, HTTP) are parameters of the embedding.
-/

namespace TinyAgent

/-- Python strings are modelled as lists of characters. -/
abbrev Str := List Char

/-- The backslash character. -/
def bsChar : Char := '\\'

/-- The single-quote character (written numerically). -/
def sqChar : Char := Char.ofNat 39

/-- The double-quote character. -/
def dqChar : Char := '"'

/-- The backtick character (written numerically). -/
def btChar : Char := Char.ofNat 96

/-- The opening-brace character (written numerically). -/
def lbraceChar : Char := Char.ofNat 123

/-- The closing-brace character (written numerically). -/
def rbraceChar : Char := Char.ofNat 125

/-- Embeds `tools.py` line 34, `_DANGEROUS_PATTERN.search`: the regex
`(?<!\\);|&&|BACKTICK|\$\(` tried at each position of the string. The
negative lookbehind applies only to the `;` alternative; `prev` is the
character before the current position (`none` at the start of the
string). -/
def dangerousAux : Option Char → Str → Bool
  | _, [] => false
  | prev, c :: rest =>
    if c = ';' ∧ prev ≠ some bsChar then true
    else if c = '&' ∧ rest.head? = some '&' then true
    else if c = btChar then true
    else if c = '$' ∧ rest.head? = some '(' then true
    else dangerousAux (some c) rest

/-- `_DANGEROUS_PATTERN.search(command) is not None` from `tools.py`. -/
def dangerous_search (s : Str) : Bool := dangerousAux none s

/-- Embeds `tools.py` lines 39-68, `_split_pipe_commands`: the loop body,
carrying the in-single-quote / in-double-quote flags, the previous
character, the current segment and the finished segments. -/
def splitPipeAux : Str → Bool → Bool → Option Char → Str → List Str → List Str
  | [], _, _, _, cur, segs => segs ++ [cur]
  | c :: rest, inS, inD, prev, cur, segs =>
    if prev ≠ some bsChar then
      if c = sqChar ∧ ¬ inD then splitPipeAux rest (!inS) inD (some c) (cur ++ [c]) segs
      else if c = dqChar ∧ ¬ inS then splitPipeAux rest inS (!inD) (some c) (cur ++ [c]) segs
      else if c = '|' ∧ ¬ inS ∧ ¬ inD then splitPipeAux rest inS inD (some c) [] (segs ++ [cur])
      else splitPipeAux rest inS inD (some c) (cur ++ [c]) segs
    else splitPipeAux rest inS inD (some c) (cur ++ [c]) segs

/-- `_split_pipe_commands(command)` from `tools.py`. -/
def split_pipe_commands (command : Str) : List Str :=
  splitPipeAux command false false none [] []

/-- Whitespace for Python `str.strip()` (ASCII whitespace). -/
def isSpaceChar (c : Char) : Bool :=
  c == ' ' || c == '\t' || c == '\n' || c == '\r' || c == '\x0b' || c == '\x0c'

/-- Python `str.strip()`. -/
def strip (s : Str) : Str :=
  ((s.dropWhile isSpaceChar).reverse.dropWhile isSpaceChar).reverse

/-- Embeds Python `shlex.split` (POSIX mode) as used by
`ToolSuite._validate_command`: whitespace separates tokens, single
quotes are literal, double quotes allow `\"` and `\\` escapes, a
backslash outside quotes escapes the next character, and an unclosed
quote or dangling backslash raises `ValueError` (here `Except.error`).
The state is (fuel, remaining input, quote mode, token-started flag,
current token, finished tokens); the fuel is always sufficient because
every step consumes at least one character. -/
def shlexAux : Nat → Str → Option Char → Bool → Str → List Str → Except Unit (List Str)
  | 0, _, _, _, _, _ => .error ()
  | _ + 1, [], none, started, cur, acc => .ok (acc ++ if started then [cur] else [])
  | _ + 1, [], some _, _, _, _ => .error ()
  | fuel + 1, c :: rest, none, started, cur, acc =>
    if isSpaceChar c then
      shlexAux fuel rest none false [] (acc ++ if started then [cur] else [])
    else if c = sqChar then shlexAux fuel rest (some sqChar) true cur acc
    else if c = dqChar then shlexAux fuel rest (some dqChar) true cur acc
    else if c = bsChar then
      match rest with
      | [] => .error ()
      | d :: rest2 => shlexAux fuel rest2 none true (cur ++ [d]) acc
    else shlexAux fuel rest none true (cur ++ [c]) acc
  | fuel + 1, c :: rest, some q, _, cur, acc =>
    if c = q then shlexAux fuel rest none true cur acc
    else if q = dqChar ∧ c = bsChar then
      match rest with
      | [] => .error ()
      | d :: rest2 =>
        if d = dqChar ∨ d = bsChar then shlexAux fuel rest2 (some dqChar) true (cur ++ [d]) acc
        else shlexAux fuel rest2 (some dqChar) true (cur ++ [c, d]) acc
    else shlexAux fuel rest (some q) true (cur ++ [c]) acc

/-- `shlex.split(segment)` from `ToolSuite._validate_command`. -/
def shlex_split (s : Str) : Except Unit (List Str) :=
  shlexAux (s.length + 1) s none false [] []

/-- Exceptions that can cross the tool-handler boundary in `tools.py`:
`ToolError`, its subclass `ToolDeniedError`, and (for completeness of
the model) the `AttributeError` Python raises when parsed arguments are
not a dict and a handler calls `.get` on them. -/
inductive PyExc where
  | toolError (msg : Str)
  | toolDenied (msg : Str)
  | attributeError
deriving DecidableEq

/-- The message of `tools.py` line 306 for rejected chaining operators. -/
def chainingMsg : Str :=
  ("Shell chaining operators (;, &&, $()) not allowed. "
    ++ "Use || for fallbacks and | for pipes.").data

/-- The denial message of `tools.py` line 325 (the Python message also
appends the sorted allowed set; the listing is omitted here, no claim
depends on the message text). -/
def deniedCmdMsg (cmd : Str) : Str :=
  ("Command ").data ++ [sqChar] ++ cmd ++ [sqChar] ++ (" not allowed.").data

/-- The allowlist loop of `ToolSuite._validate_command` (lines 313-325):
each pipeline segment is stripped, empty segments are skipped, the
segment is tokenized with `shlex.split` (failure is a `ToolError`), and
a non-empty token list whose head is outside the allowlist raises
`ToolDeniedError`. -/
def validateSegments (allowed : List Str) : List Str → Except PyExc Unit
  | [] => .ok ()
  | seg :: rest =>
    let seg := strip seg
    if seg = [] then validateSegments allowed rest
    else
      match shlex_split seg with
      | .error _ => .error (.toolError (("Malformed command segment: ").data ++ seg))
      | .ok parts =>
        match parts with
        | [] => validateSegments allowed rest
        | p0 :: _ =>
          if p0 ∈ allowed then validateSegments allowed rest
          else .error (.toolDenied (deniedCmdMsg p0))

/-- `ToolSuite._validate_command` (`tools.py` lines 296-325): reject on
the dangerous-operator pattern, skip the allowlist check when the
allowlist is empty, otherwise validate every pipeline segment. -/
def validate_command (allowed : List Str) (command : Str) : Except PyExc Unit :=
  if dangerous_search command then .error (.toolError chainingMsg)
  else if allowed = [] then .ok ()
  else validateSegments allowed (split_pipe_commands command)

/-- `ALLOWED_COMMANDS` from `tools.py` lines 18-31: every entry is
commented out in the source, so the shipped allowlist is empty. -/
def ALLOWED_COMMANDS : List Str := []

/-- Python values produced by `json.loads` (floating-point numbers are
not modelled; none of the analyzed inputs involve them). -/
inductive PyVal where
  | pstr (s : Str)
  | pint (n : Int)
  | pbool (b : Bool)
  | pnull
  | plist (xs : List PyVal)
  | pdict (kvs : List (Str × PyVal))

/-- JSON whitespace skipping. -/
def skipWs (s : Str) : Str :=
  s.dropWhile (fun c => c == ' ' || c == '\t' || c == '\n' || c == '\r')

/-- Decimal digits to a natural number. -/
def digitsToNat : Nat → Str → Nat
  | acc, [] => acc
  | acc, c :: rest => digitsToNat (acc * 10 + (c.toNat - 48)) rest

/-- Hex digit value. -/
def hexVal (c : Char) : Option Nat :=
  if c.isDigit then some (c.toNat - 48)
  else if 'a' ≤ c ∧ c ≤ 'f' then some (c.toNat - 87)
  else if 'A' ≤ c ∧ c ≤ 'F' then some (c.toNat - 55)
  else none

/-- JSON string body after the opening quote: returns the decoded
content and the input after the closing quote. Surrogate-pair decoding
of consecutive u-escapes is not modelled. -/
def parseJsonStr : Nat → Str → Option (Str × Str)
  | 0, _ => none
  | _ + 1, [] => none
  | fuel + 1, c :: rest =>
    if c = dqChar then some ([], rest)
    else if c = bsChar then
      match rest with
      | [] => none
      | e :: rest2 =>
        let cont (ch : Char) (rem : Str) : Option (Str × Str) :=
          match parseJsonStr fuel rem with
          | some (s, r) => some (ch :: s, r)
          | none => none
        if e = dqChar then cont dqChar rest2
        else if e = bsChar then cont bsChar rest2
        else if e = '/' then cont '/' rest2
        else if e = 'n' then cont '\n' rest2
        else if e = 't' then cont '\t' rest2
        else if e = 'r' then cont '\r' rest2
        else if e = 'b' then cont (Char.ofNat 8) rest2
        else if e = 'f' then cont (Char.ofNat 12) rest2
        else if e = 'u' then
          match rest2 with
          | h1 :: h2 :: h3 :: h4 :: rest3 =>
            match hexVal h1, hexVal h2, hexVal h3, hexVal h4 with
            | some a, some b, some c2, some d =>
              cont (Char.ofNat (((a * 16 + b) * 16 + c2) * 16 + d)) rest3
            | _, _, _, _ => none
          | _ => none
        else none
    else
      match parseJsonStr fuel rest with
      | some (s, r) => some (c :: s, r)
      | none => none

/-- JSON integer literal after an optional leading minus sign. -/
def parseNumTail (neg : Bool) (s : Str) : Option (PyVal × Str) :=
  let ds := s.takeWhile Char.isDigit
  let r := s.dropWhile Char.isDigit
  if ds = [] then none
  else
    let n : Int := (digitsToNat 0 ds : Nat)
    let v : PyVal := .pint (if neg then -n else n)
    match r with
    | c :: _ => if c = '.' ∨ c = 'e' ∨ c = 'E' then none else some (v, r)
    | [] => some (v, [])

mutual

/-- Recursive-descent JSON value parser modelling `json.loads`; the fuel
is always sufficient because every recursive call consumes input. -/
def parseVal : Nat → Str → Option (PyVal × Str)
  | 0, _ => none
  | fuel + 1, s =>
    match skipWs s with
    | [] => none
    | c :: rest =>
      if c = lbraceChar then
        match skipWs rest with
        | [] => none
        | d :: rest2 =>
          if d = rbraceChar then some (.pdict [], rest2)
          else parseMembers fuel (d :: rest2) []
      else if c = '[' then
        match skipWs rest with
        | [] => none
        | d :: rest2 =>
          if d = ']' then some (.plist [], rest2)
          else parseItems fuel (d :: rest2) []
      else if c = dqChar then
        match parseJsonStr (rest.length + 1) rest with
        | some (str, r) => some (.pstr str, r)
        | none => none
      else if c = 't' then
        match rest with
        | 'r' :: 'u' :: 'e' :: r => some (.pbool true, r)
        | _ => none
      else if c = 'f' then
        match rest with
        | 'a' :: 'l' :: 's' :: 'e' :: r => some (.pbool false, r)
        | _ => none
      else if c = 'n' then
        match rest with
        | 'u' :: 'l' :: 'l' :: r => some (.pnull, r)
        | _ => none
      else if c = '-' then parseNumTail true rest
      else if c.isDigit then parseNumTail false (c :: rest)
      else none

/-- JSON array elements after the opening bracket (non-empty case). -/
def parseItems : Nat → Str → List PyVal → Option (PyVal × Str)
  | 0, _, _ => none
  | fuel + 1, s, acc =>
    match parseVal fuel s with
    | none => none
    | some (v, r) =>
      match skipWs r with
      | [] => none
      | d :: r2 =>
        if d = ',' then parseItems fuel r2 (acc ++ [v])
        else if d = ']' then some (.plist (acc ++ [v]), r2)
        else none

/-- JSON object members after the opening brace (non-empty case). -/
def parseMembers : Nat → Str → List (Str × PyVal) → Option (PyVal × Str)
  | 0, _, _ => none
  | fuel + 1, s, acc =>
    match skipWs s with
    | [] => none
    | c :: rest =>
      if c = dqChar then
        match parseJsonStr (rest.length + 1) rest with
        | none => none
        | some (key, r) =>
          match skipWs r with
          | ':' :: r2 =>
            match parseVal fuel r2 with
            | none => none
            | some (v, r3) =>
              match skipWs r3 with
              | [] => none
              | d :: r4 =>
                if d = ',' then parseMembers fuel r4 (acc ++ [(key, v)])
                else if d = rbraceChar then some (.pdict (acc ++ [(key, v)]), r4)
                else none
          | _ => none
      else none

end

/-- `json.loads(text)`: parse a full JSON document, `none` models a
raised `json.JSONDecodeError`. -/
def json_loads (s : Str) : Option PyVal :=
  match parseVal (s.length + 1) s with
  | some (v, r) => if skipWs r = [] then some v else none
  | none => none

/-- Raw arguments handed to `ToolSuite.execute`: already a dict, or a
JSON-encoded text blob. -/
inductive RawArgs where
  | rdict (kvs : List (Str × PyVal))
  | rtext (s : Str)

/-- `ToolSuite._parse_arguments` (`tools.py` lines 427-439): a dict is
returned as-is, a falsy (empty) text yields an empty dict, otherwise
the text is JSON-decoded and a decode failure raises `ToolError` (the
Python message appends the decoder's detail text, omitted here). -/
def parse_arguments : RawArgs → Except PyExc PyVal
  | .rdict kvs => .ok (.pdict kvs)
  | .rtext s =>
    if s = [] then .ok (.pdict [])
    else
      match json_loads s with
      | some v => .ok v
      | none => .error (.toolError ("Invalid arguments JSON").data)

/-- A recorded tool invocation, `StateManager.add_tool_event`
(`state.py` lines 79-92); the Python `args` field holds `str(args)`,
modelled by storing the argument value itself. -/
structure ToolEvent where
  ename : Str
  eargs : PyVal
  estatus : Str

/-- The fields of `StateManager` (`state.py`) that the tool layer
touches; the remaining fields (hypothesis, actions, skills, summary,
context_info) are independent of these claims. -/
structure StateManager where
  denial_count : Nat
  tool_events : List ToolEvent

/-- `StateManager.__init__`: counters start at zero. -/
def initialState : StateManager := ⟨0, []⟩

/-- `StateManager.MAX_DENIALS`. -/
def MAX_DENIALS : Nat := 3

/-- `StateManager.add_denial` (`state.py` lines 68-71). -/
def add_denial (sm : StateManager) : StateManager :=
  { sm with denial_count := sm.denial_count + 1 }

/-- `StateManager.denials_exceeded` (`state.py` lines 73-77). -/
def denials_exceeded (sm : StateManager) : Bool :=
  MAX_DENIALS ≤ sm.denial_count

/-- `StateManager.add_tool_event`. -/
def add_tool_event (sm : StateManager) (n : Str) (a : PyVal) (st : Str) : StateManager :=
  { sm with tool_events := sm.tool_events ++ [⟨n, a, st⟩] }

/-- The I/O surface of the tool handlers: file reading, listing and
grepping (`tools.py` lines 177-259) raise only `ToolError`, modelled as
`Except` with the error message; `run_proc` is `subprocess.run` plus
output truncation (lines 276-294), where `none` models the 45-second
timeout (a `ToolError`). -/
structure Effects where
  read_file : List (Str × PyVal) → Except Str Str
  list_files : List (Str × PyVal) → Except Str Str
  grep : List (Str × PyVal) → Except Str Str
  run_proc : Str → Option Str

/-- Effects that fail every file operation and produce no output. -/
def noEffects : Effects :=
  ⟨fun _ => .error [], fun _ => .error [], fun _ => .error [], fun _ => none⟩

/-- Truthiness of a Python value. -/
def pyTruthy : PyVal → Bool
  | .pstr s => !s.isEmpty
  | .pint n => decide (n ≠ 0)
  | .pbool b => b
  | .pnull => false
  | .plist xs => !xs.isEmpty
  | .pdict kvs => !kvs.isEmpty

/-- `dict.get` on parsed arguments. -/
def dictGet (kvs : List (Str × PyVal)) (k : Str) : Option PyVal :=
  match kvs.find? (fun kv => kv.1 == k) with
  | some kv => some kv.2
  | none => none

/-- `(args.get("command") or "").strip()` without the final strip: `or`
replaces a missing or falsy value by the empty string, and calling
`.strip()` on a truthy non-string raises `AttributeError`. -/
def getCommandArg (kvs : List (Str × PyVal)) : Except PyExc Str :=
  match dictGet kvs ("command").data with
  | none => .ok []
  | some v =>
    if pyTruthy v then
      match v with
      | .pstr s => .ok s
      | _ => .error .attributeError
    else .ok []

/-- `ToolSuite._tool_run_command` (`tools.py` lines 261-294): extract
and strip the command, reject an empty command, validate it, then run
it through the shell (output truncation and stdout/stderr joining are
folded into `Effects.run_proc`). -/
def tool_run_command (eff : Effects) (allowed : List Str) (args : PyVal) : Except PyExc Str :=
  match args with
  | .pdict kvs => do
      let raw ← getCommandArg kvs
      let command := strip raw
      if command = [] then .error (.toolError ("No command provided").data)
      else do
        validate_command allowed command
        match eff.run_proc command with
        | none => .error (.toolError ("Command timed out after 45 seconds").data)
        | some out => .ok out
  | _ => .error .attributeError

/-- A file-tool handler applied to parsed arguments: handlers call
`.get` on the arguments (AttributeError on a non-dict) and convert
their failures to `ToolError`. -/
def runFileTool (f : List (Str × PyVal) → Except Str Str) (args : PyVal) : Except PyExc Str :=
  match args with
  | .pdict kvs =>
    match f kvs with
    | .ok o => .ok o
    | .error m => .error (.toolError m)
  | _ => .error .attributeError

/-- The registry names built by `ToolSuite._build_registry`. -/
def registryNames : List Str :=
  [("read_file").data, ("list_files").data, ("grep").data, ("run_command").data]

/-- Dispatch a registered tool handler by name. -/
def runHandler (eff : Effects) (allowed : List Str) (nm : Str) (args : PyVal) :
    Except PyExc Str :=
  if nm = ("read_file").data then runFileTool eff.read_file args
  else if nm = ("list_files").data then runFileTool eff.list_files args
  else if nm = ("grep").data then runFileTool eff.grep args
  else tool_run_command eff allowed args

/-- The result dict of `ToolSuite.execute`. -/
structure ExecResult where
  status : Str
  output : Str
  denied_limit : Bool
deriving DecidableEq

/-- The suffix appended to the output once the denial cap is reached. -/
def deniedLimitSuffix : Str :=
  (" — denial limit reached, stop retrying blocked commands.").data

/-- The `except ToolDeniedError` branch of `ToolSuite.execute`
(`tools.py` lines 122-135): build the output, and when a state manager
is present increment the denial counter, flag and re-label the event
once the cap is reached, and log the event. -/
def deniedFinish (nm : Str) (args : PyVal) (exc : Str) :
    Option StateManager → Except PyExc (ExecResult × Option StateManager)
  | none => .ok (⟨("denied").data, ("Tool denied: ").data ++ exc, false⟩, none)
  | some sm =>
    let sm2 := add_denial sm
    if denials_exceeded sm2 then
      .ok (⟨("denied").data, ("Tool denied: ").data ++ exc ++ deniedLimitSuffix, true⟩,
        some (add_tool_event sm2 nm args (("denied (limit reached)").data)))
    else
      .ok (⟨("denied").data, ("Tool denied: ").data ++ exc, false⟩,
        some (add_tool_event sm2 nm args (("denied").data)))

/-- The `try`/`except` part of `ToolSuite.execute` (`tools.py` lines
116-141), applied to the handler's outcome: success logs an `ok` event,
`ToolDeniedError` goes through the denial bookkeeping, `ToolError`
becomes an `error` result, and any other exception propagates. -/
def finishExecute (nm : Str) (args : PyVal) (state_manager : Option StateManager) :
    Except PyExc Str → Except PyExc (ExecResult × Option StateManager)
  | .ok out =>
    .ok (⟨("ok").data, out, false⟩,
      state_manager.map (fun sm => add_tool_event sm nm args (("ok").data)))
  | .error (.toolDenied exc) => deniedFinish nm args exc state_manager
  | .error (.toolError exc) =>
    .ok (⟨("error").data, ("Tool error: ").data ++ exc, false⟩,
      state_manager.map (fun sm => add_tool_event sm nm args ((("error: ").data ++ exc))))
  | .error .attributeError => .error .attributeError

/-- `ToolSuite.execute` (`tools.py` lines 92-141). The registry lookup
happens first; `_parse_arguments` is called OUTSIDE the try/except
block, so a `ToolError` it raises propagates to the caller
(`Except.error`); handler exceptions are handled by `finishExecute`.
The optional notifier callback is a pure side effect and is omitted. -/
def execute (eff : Effects) (allowed : List Str) (nm : Str) (arguments : RawArgs)
    (state_manager : Option StateManager) :
    Except PyExc (ExecResult × Option StateManager) :=
  if nm ∉ registryNames then
    .ok (⟨("error").data, ("Unknown tool ").data ++ [sqChar] ++ nm ++ [sqChar], false⟩,
      state_manager)
  else
    match parse_arguments arguments with
    | .error e => .error e
    | .ok args => finishExecute nm args state_manager (runHandler eff allowed nm args)

/-- `Role` from `messages.py`. -/
inductive Role where
  | system
  | user
  | assistant
  | tool
deriving DecidableEq

/-- One entry of an assistant message's `tool_calls` list; the context
engine never inspects entries, only their presence. -/
structure ToolCall where
  cid : Str
  cname : Str
deriving DecidableEq

/-- `Message` from `messages.py`. -/
structure Message where
  role : Role
  content : Str
  name : Option Str
  tool_calls : Option (List ToolCall)
  tool_call_id : Option Str
deriving DecidableEq

/-- A `role` argument as Python receives it: `None`, an enum member, or
an arbitrary string. -/
inductive RoleArg where
  | rnone
  | renum (r : Role)
  | rstr (s : Str)

/-- `Role.validate` (`messages.py` lines 28-42): `None` defaults to
user, enum members pass through, and only the four known role strings
are accepted - anything else raises `ValueError`. -/
def role_validate : RoleArg → Except Str Role
  | .rnone => .ok .user
  | .renum r => .ok r
  | .rstr s =>
    if s = ("system").data then .ok .system
    else if s = ("user").data then .ok .user
    else if s = ("assistant").data then .ok .assistant
    else if s = ("tool").data then .ok .tool
    else .error (("Unsupported role: ").data ++ s)

/-- `Message.__init__` (`messages.py` lines 48-53): validate the role
and normalize a falsy content to the empty string. -/
def mkMessage (role : RoleArg) (content : Option Str) (name : Option Str)
    (tool_calls : Option (List ToolCall)) (tool_call_id : Option Str) : Except Str Message :=
  match role_validate role with
  | .error e => .error e
  | .ok r => .ok ⟨r, content.getD [], name, tool_calls, tool_call_id⟩

/-- Truthiness of the `tool_calls` attribute (`None` and the empty list
are both falsy). -/
def hasToolCalls (m : Message) : Bool :=
  match m.tool_calls with
  | none => false
  | some l => !l.isEmpty

/-- `SYSTEM_PROMPT` from `context.py` lines 19-44, verbatim. -/
def SYSTEM_PROMPT : Str :=
  ("## System Instructions\n\n"
    ++ "You are 'Tiny Agent', an engineering helper with inspection tools.\n"
    ++ "When a request implies checking this host, use your tools and report\n"
    ++ "what you find. For purely informational questions, answer from your\n"
    ++ "own knowledge without using tools.\n\n"
    ++ "Rules:\n"
    ++ "1. Start every reply with [HYPOTHESIS: ...].\n"
    ++ "2. Keep answers brief. Present commands on their own line with two inital spaces and a\n"
    ++ "   short comment above. No markdown formatting in responses.\n"
    ++ "3. Cite files and commands you reference. Quote real tool output,\n"
    ++ "   never invent results.\n"
    ++ "4. Tools: read_file, list_files, grep, run_command (never run\n"
    ++ "   destructive commands). run_command allows pipes (|) and fallbacks\n"
    ++ "   (||) but blocks ;, &&, $(), and backticks. Never wrap commands in\n"
    ++ "   bash -c or sh -c. Minimize tool calls by combining related checks:\n"
    ++ "   ps -eo pid,comm,args | egrep -i '(nginx|postgres|redis)'\n"
    ++ "   which docker || which python3 || echo not found\n"
    ++ "5. Treat ## Conversation Summary, ## Agent State, and ## Skill:\n"
    ++ "   blocks as binding context. Skills override these rules except\n"
    ++ "   for rule 1 and the non-destructive constraint.\n"
    ++ "6. If the user asks for something outside these limits, explain\n"
    ++ "   the restriction.\n"
    ++ "7. Ask follow-up questions only when needed to proceed.\n"
    ++ "Tone: practical and direct. Always end by asking the user to confirm success or provide more data if required").data

/-- `approx_token_count` from `utils.py` lines 40-46: 0 for falsy text,
otherwise `max(1, len(text) // 4)`. -/
def approx_token_count (text : Str) : Nat :=
  if text = [] then 0 else max 1 (text.length / 4)

/-- `ContextManager` state (`context.py`): the three limits fixed at
construction plus the message log and rolling summary. -/
structure ContextManager where
  max_turns : Nat
  keep_recent : Nat
  token_limit : Nat
  messages : List Message
  summary : Str
deriving DecidableEq

/-- `ContextManager.__init__` (`context.py` lines 70-86): arguments
below 1 are replaced by the defaults (20 turns, 20000 tokens, keep 5),
the constructor raises when the effective `keep_recent` is not strictly
below the effective `max_turns`, and the token limit is increased once
by the system prompt's token estimate plus a buffer of 150. -/
def mkContextManager (max_turns token_limit keep_recent : Int) : Except Str ContextManager :=
  let mt : Int := if 1 ≤ max_turns then max_turns else 20
  let kr : Int := if 1 ≤ keep_recent then keep_recent else 5
  let tl : Int := if 1 ≤ token_limit then token_limit else 20000
  if mt ≤ kr then .error (("keep_recent must be less than max_turns").data)
  else .ok ⟨mt.toNat, kr.toNat, (tl + (approx_token_count SYSTEM_PROMPT : Int) + 150).toNat,
    [], []⟩

/-- `ContextManager.add_message` (`context.py` lines 88-99). -/
def add_message (cm : ContextManager) (role : RoleArg) (content : Option Str)
    (name : Option Str) (tool_calls : Option (List ToolCall)) (tool_call_id : Option Str) :
    Except Str (Message × ContextManager) :=
  match mkMessage role content name tool_calls tool_call_id with
  | .error e => .error e
  | .ok m => .ok (m, { cm with messages := cm.messages ++ [m] })

/-- The chat-count predicate of `maybe_summarize` (`context.py` lines
200-203): not system, not tool, and no tool calls. -/
def countsAsChat (m : Message) : Bool :=
  decide (m.role ≠ .system) && decide (m.role ≠ .tool) && !hasToolCalls m

/-- The `chat_count` computed inside `maybe_summarize`. -/
def chat_count (cm : ContextManager) : Nat :=
  cm.messages.countP countsAsChat

/-- `ContextManager._token_count` (`context.py` lines 246-251). -/
def token_count (cm : ContextManager) : Nat :=
  ((cm.messages.filter (fun m => decide (m.role ≠ .system))).map
    (fun m => approx_token_count m.content)).sum

/-- The compaction trigger computed inside `maybe_summarize` (`needs_trim
or needs_summary`, `context.py` lines 205-206); the spec's
`needs_compaction()`. -/
def needs_compaction (cm : ContextManager) : Bool :=
  decide (cm.max_turns < chat_count cm) || decide (cm.token_limit ≤ token_count cm)

/-- The turn predicate of `recent_messages` (`context.py` line 123):
a user message or a tool-call-free assistant message. -/
def isChatTurn (m : Message) : Bool :=
  decide (m.role = .user) || (decide (m.role = .assistant) && !hasToolCalls m)

/-- The backward walk of `recent_messages` (`context.py` lines 117-128)
over the reversed non-system messages: prepend each message (so the
accumulator is in document order), count chat turns, and stop once
`limit` turns are counted. -/
def recentWalk (limit : Nat) : List Message → Nat → List Message → List Message
  | [], _, acc => acc
  | m :: rest, cnt, acc =>
    let acc2 := m :: acc
    if isChatTurn m then
      if limit ≤ cnt + 1 then acc2 else recentWalk limit rest (cnt + 1) acc2
    else recentWalk limit rest cnt acc2

/-- `ContextManager.recent_messages` (`context.py` lines 106-129). -/
def recent_messages (cm : ContextManager) (limit : Nat) : List Message :=
  recentWalk limit ((cm.messages.filter (fun m => decide (m.role ≠ .system))).reverse) 0 []

/-- The `"## Conversation Summary"` marker string. -/
def summaryMarker : Str := ("## Conversation Summary").data

/-- `msg.content.startswith("## Conversation Summary")`. -/
def startsWithSummary (m : Message) : Bool :=
  summaryMarker.isPrefixOf m.content

/-- `ContextManager.summary_plus_recent` (`context.py` lines 131-145):
system messages without any stale summary marker, an optional synthetic
summary message, then the recent turn window. -/
def summary_plus_recent (cm : ContextManager) (limit : Nat) : List Message :=
  let system_msgs := cm.messages.filter
    (fun m => decide (m.role = .system) && !startsWithSummary m)
  let withSum :=
    if cm.summary = [] then system_msgs
    else system_msgs ++ [⟨.system, summaryMarker ++ '\n' :: cm.summary, none, none, none⟩]
  withSum ++ recent_messages cm limit

/-- `ContextManager.maybe_summarize` (`context.py` lines 186-244) with
the summarizer as an abstract function returning `(text, error)`.
State-tracker telemetry is omitted: it never touches the log, and the
transient state block only alters the summarizer's input, which is
already arbitrary here. -/
def maybe_summarize (cm : ContextManager)
    (provider : Option (List Message → Str × Option Str)) : ContextManager :=
  match provider with
  | none => cm
  | some summarize =>
    if needs_compaction cm then
      let summary_text := (summarize cm.messages).1
      if summary_text = [] then cm
      else
        let system_messages := cm.messages.filter
          (fun m => decide (m.role = .system) && !startsWithSummary m)
        let recent := recent_messages cm cm.keep_recent
        { cm with
          summary := summary_text,
          messages := system_messages
            ++ [⟨.system, summaryMarker ++ '\n' :: summary_text, none, none, none⟩]
            ++ recent }
    else cm

/-!  Shared concrete states used by several claim scenarios. -/

/-- The context manager produced by `ContextManager(20, 20000, 5)`:
token limit `20000 + 341 + 150` where 341 is the system prompt's token
estimate. -/
def defaultCM : ContextManager := ⟨20, 5, 20491, [], []⟩

/-- The context manager produced by `ContextManager(20, 1, 5)`. -/
def defaultCM1 : ContextManager := ⟨20, 5, 492, [], []⟩

/-- A Boolean test for valid inputs to `Role.validate`. -/
def validRoleArg : RoleArg → Bool
  | .rnone => true
  | .renum _ => true
  | .rstr s =>
    decide (s = ("system").data) || decide (s = ("user").data)
      || decide (s = ("assistant").data) || decide (s = ("tool").data)

/-- C1: the spec says `ToolSuite.execute` converts a malformed JSON
argument string to a `status = "error"` result and never lets an
exception escape. In the code, `_parse_arguments` is called before the
`try` block of `execute`, so the `ToolError` it raises on malformed
JSON propagates to the caller: evaluating the model at the failing
input (known tool `read_file`, raw argument text consisting of a single
opening brace) yields a raised exception, not a result dict. -/
theorem C1_parse_failure_escapes :
    execute noEffects ALLOWED_COMMANDS (("read_file").data) (.rtext [lbraceChar])
        (some initialState)
      = .error (.toolError (("Invalid arguments JSON").data)) := by
  rfl

/-- C7 counterexample: with `keep_recent = 0 < 1 = max_turns` the claim
says construction succeeds, but the constructor first replaces the
below-1 `keep_recent` by the default 5 and then fails the `5 < 1`
check, raising. -/
theorem C7_counterexample :
    (0 : Int) < 1
    ∧ mkContextManager 1 1 0 = .error (("keep_recent must be less than max_turns").data) := by
  exact ⟨by norm_num, rfl⟩

/-- C7 (amended): construction fails exactly when the effective
`keep_recent` (arguments below 1 are replaced by the default 5) is at
least the effective `max_turns` (default 20 below 1); in particular,
for arguments that are both at least 1, it fails exactly when
`keep_recent ≥ max_turns`. -/
theorem C7_constructor_guard (mt tl kr : Int) :
    ((mkContextManager mt tl kr).isOk = true ↔
      (if 1 ≤ kr then kr else 5) < (if 1 ≤ mt then mt else 20))
    ∧ (1 ≤ mt → 1 ≤ kr →
      ((mkContextManager mt tl kr).isOk = true ↔ kr < mt)) := by
  have base : (mkContextManager mt tl kr).isOk = true ↔
      (if 1 ≤ kr then kr else 5) < (if 1 ≤ mt then mt else 20) := by
    unfold mkContextManager
    by_cases h : (if 1 ≤ mt then mt else 20) ≤ (if 1 ≤ kr then kr else 5)
    · rw [if_pos h]
      simp only [Except.isOk, Except.toBool]
      constructor
      · intro hh; exact absurd hh (by simp)
      · intro hh; omega
    · rw [if_neg h]
      simp only [Except.isOk, Except.toBool]
      constructor
      · intro _; omega
      · intro _; trivial
  refine ⟨base, fun hmt hkr => ?_⟩
  rw [base, if_pos hkr, if_pos hmt]

/-- C7 witness: the amended characterization at concrete arguments
`(max_turns, token_limit, keep_recent) = (3, 1, 2)`: construction
succeeds since `2 < 3`. -/
theorem C7_witness :
    (1 : Int) ≤ 3 ∧ (1 : Int) ≤ 2 ∧ (mkContextManager 3 1 2).isOk = true :=
  ⟨by norm_num, by norm_num,
    ((C7_constructor_guard 3 1 2).2 (by norm_num) (by norm_num)).2 (by norm_num)⟩

set_option maxRecDepth 8192 in
/-- C9 counterexample: the claim quantifies over every role value, but
`Role.validate` raises `ValueError` on the unsupported role string
`"banana"`, so `add_message` fails instead of appending. -/
theorem C9_counterexample :
    mkContextManager 20 20000 5 = .ok defaultCM
    ∧ add_message defaultCM (.rstr ("banana").data) (some ("hi").data) none none none
      = .error (("Unsupported role: banana").data) := by
  exact ⟨rfl, rfl⟩

/-- C9 (amended): for every valid role argument (`None`, a `Role` enum
member, or one of the four supported role strings) and arbitrary
content, name, tool_calls and tool_call_id, `add_message` succeeds,
appends exactly one message to the log and returns it. -/
theorem C9_add_appends (cm : ContextManager) (role : RoleArg) (content nm tcid : Option Str)
    (tcs : Option (List ToolCall)) (h : validRoleArg role = true) :
    ∃ m, add_message cm role content nm tcs tcid
      = .ok (m, { cm with messages := cm.messages ++ [m] }) := by
  cases role with
  | rnone => exact ⟨_, rfl⟩
  | renum r => exact ⟨_, rfl⟩
  | rstr s =>
    simp only [validRoleArg, Bool.or_eq_true, decide_eq_true_eq] at h
    rcases h with ((h | h) | h) | h <;> subst h <;> exact ⟨_, rfl⟩

/-- C9 witness: `add_message` on the empty default manager with role
string `"user"` appends one message. -/
theorem C9_witness :
    validRoleArg (.rstr ("user").data) = true
    ∧ ∃ m, add_message defaultCM (.rstr ("user").data) (some ("hi").data) none none none
        = .ok (m, { defaultCM with messages := defaultCM.messages ++ [m] }) :=
  ⟨by decide, C9_add_appends defaultCM _ _ _ _ _ (by decide)⟩

/-- The arguments dict for a `run_command` call with a chaining operator. -/
def chainArgs : RawArgs := .rdict [(("command").data, .pstr ("ls; rm -rf /").data)]

/-- C2 counterexample: a `run_command` whose command fails the safety
validator for a chaining operator (`ls; rm -rf /`) raises `ToolError`,
not `ToolDeniedError`, so `execute` reports status `"error"` and leaves
the denial counter at 0 - the claim demanded status `"denied"` and an
increment to 1. -/
theorem C2_counterexample :
    (execute noEffects ALLOWED_COMMANDS (("run_command").data) chainArgs
        (some initialState)).map
        (fun p => (p.1.status, p.1.denied_limit, p.2.map (fun sm => sm.denial_count)))
      = .ok (("error").data, false, some 0) := by
  rfl

/-- Does a validation result carry a `ToolDeniedError`? -/
def isDeniedExc : Except PyExc Unit → Bool
  | .error (.toolDenied _) => true
  | _ => false

/-- Does a validation result carry a plain `ToolError`? -/
def isToolErrorExc : Except PyExc Unit → Bool
  | .error (.toolError _) => true
  | _ => false

/-- Dispatching the name `run_command` reaches the command handler. -/
lemma runHandler_run_command (eff : Effects) (allowed : List Str) (args : PyVal) :
    runHandler eff allowed (("run_command").data) args = tool_run_command eff allowed args := by
  unfold runHandler
  rw [if_neg (by decide), if_neg (by decide), if_neg (by decide)]

/-- The validator accepts the empty command string. -/
lemma validate_command_nil (allowed : List Str) : validate_command allowed [] = .ok () := by
  unfold validate_command
  rw [if_neg (by decide)]
  by_cases h : allowed = []
  · rw [if_pos h]
  · rw [if_neg h]
    rfl

/-- When the validator rejects the stripped command, the `run_command`
handler forwards exactly that exception. -/
lemma tool_run_command_validate (eff : Effects) (allowed : List Str) (c : Str) (e : PyExc)
    (hv : validate_command allowed (strip c) = .error e) :
    tool_run_command eff allowed (.pdict [(("command").data, .pstr c)]) = .error e := by
  have hs : strip c ≠ [] := by
    intro h
    rw [h, validate_command_nil] at hv
    exact absurd hv (by simp)
  cases c with
  | nil =>
    exact absurd (show strip ([] : Str) = [] from rfl) hs
  | cons a as =>
    show (do
      let raw ← getCommandArg [(("command").data, .pstr (a :: as))]
      let command := strip raw
      if command = [] then (.error (.toolError (("No command provided").data)) : Except PyExc Str)
      else do
        validate_command allowed command
        match eff.run_proc command with
        | none => .error (.toolError (("Command timed out after 45 seconds").data))
        | some out => .ok out) = .error e
    have hget : getCommandArg [(("command").data, .pstr (a :: as))] = .ok (a :: as) := rfl
    rw [hget]
    show (if strip (a :: as) = [] then
        (.error (.toolError (("No command provided").data)) : Except PyExc Str)
      else do
        validate_command allowed (strip (a :: as))
        match eff.run_proc (strip (a :: as)) with
        | none => .error (.toolError (("Command timed out after 45 seconds").data))
        | some out => .ok out) = .error e
    rw [if_neg hs, hv]
    rfl

/-- Unfolding `execute` on a known tool name with dict arguments. -/
lemma execute_rdict (eff : Effects) (allowed : List Str) (nm : Str)
    (h : nm ∈ registryNames) (args : List (Str × PyVal)) (sm : Option StateManager) :
    execute eff allowed nm (.rdict args) sm
      = finishExecute nm (.pdict args) sm (runHandler eff allowed nm (.pdict args)) := by
  unfold execute
  rw [if_neg (not_not_intro h)]
  rfl

/-- C2 (amended): only allowlist rejections are denials. For a
`run_command` call, when the safety validator rejects the stripped
command with `ToolDeniedError` (a pipeline segment's leading command
outside the allowlist), `execute` reports status `"denied"` and
increments the denial counter by exactly one; when the validator
rejects it with a plain `ToolError` (a forbidden chaining operator, or
a malformed segment), `execute` reports status `"error"` and the denial
counter is unchanged. -/
theorem C2_denial_vs_error (eff : Effects) (allowed : List Str) (c : Str) (sm : StateManager) :
    (isDeniedExc (validate_command allowed (strip c)) = true →
      (execute eff allowed (("run_command").data) (.rdict [(("command").data, .pstr c)])
          (some sm)).map (fun p => (p.1.status, p.2.map (fun s => s.denial_count)))
        = .ok (("denied").data, some (sm.denial_count + 1)))
    ∧ (isToolErrorExc (validate_command allowed (strip c)) = true →
      (execute eff allowed (("run_command").data) (.rdict [(("command").data, .pstr c)])
          (some sm)).map (fun p => (p.1.status, p.2.map (fun s => s.denial_count)))
        = .ok (("error").data, some sm.denial_count)) := by
  constructor
  · intro hd
    cases hval : validate_command allowed (strip c) with
    | ok u => rw [hval] at hd; exact absurd hd (by simp [isDeniedExc])
    | error e =>
      cases e with
      | toolError m => rw [hval] at hd; exact absurd hd (by simp [isDeniedExc])
      | attributeError => rw [hval] at hd; exact absurd hd (by simp [isDeniedExc])
      | toolDenied m =>
        have hrun := tool_run_command_validate eff allowed c (.toolDenied m) hval
        rw [execute_rdict eff allowed _ (by decide) _ _, runHandler_run_command, hrun]
        simp only [finishExecute, deniedFinish]
        by_cases hex : denials_exceeded (add_denial sm)
        · rw [if_pos hex]; rfl
        · rw [if_neg hex]; rfl
  · intro hd
    cases hval : validate_command allowed (strip c) with
    | ok u => rw [hval] at hd; exact absurd hd (by simp [isToolErrorExc])
    | error e =>
      cases e with
      | toolDenied m => rw [hval] at hd; exact absurd hd (by simp [isToolErrorExc])
      | attributeError => rw [hval] at hd; exact absurd hd (by simp [isToolErrorExc])
      | toolError m =>
        have hrun := tool_run_command_validate eff allowed c (.toolError m) hval
        rw [execute_rdict eff allowed _ (by decide) _ _, runHandler_run_command, hrun]
        rfl

/-- C2 witness: with allowlist `["ls"]`, the command `rm -rf /tmp/x` is
denied and counted (0 to 1), while the chaining command `ls; rm -rf /`
is a validation error and the counter stays 0. -/
theorem C2_witness :
    ((execute noEffects [("ls").data] (("run_command").data)
        (.rdict [(("command").data, .pstr ("rm -rf /tmp/x").data)]) (some initialState)).map
        (fun p => (p.1.status, p.2.map (fun s => s.denial_count)))
      = .ok (("denied").data, some (initialState.denial_count + 1)))
    ∧ ((execute noEffects [("ls").data] (("run_command").data)
        (.rdict [(("command").data, .pstr ("ls; rm -rf /").data)]) (some initialState)).map
        (fun p => (p.1.status, p.2.map (fun s => s.denial_count)))
      = .ok (("error").data, some initialState.denial_count)) :=
  ⟨(C2_denial_vs_error noEffects [("ls").data] (("rm -rf /tmp/x").data) initialState).1
      (by decide),
   (C2_denial_vs_error noEffects [("ls").data] (("ls; rm -rf /").data) initialState).2
      (by decide)⟩

/-- A `run_command` argument dict whose command is outside the
allowlist `["ls"]`. -/
def rmArgs : RawArgs := .rdict [(("command").data, .pstr ("rm -rf /tmp/x").data)]

/-- The singleton allowlist `["ls"]`. -/
def allowLs : List Str := [("ls").data]

/-- One denied `run_command` round: run `execute` on `rmArgs` and keep
the updated state. -/
def denyStep (sm : StateManager) : StateManager :=
  match execute noEffects allowLs (("run_command").data) rmArgs (some sm) with
  | .ok (_, some sm2) => sm2
  | _ => sm

/-- The state after `n` denied commands starting from a fresh session. -/
def denyIter : Nat → StateManager
  | 0 => initialState
  | n + 1 => denyStep (denyIter n)

/-- C8: the denial counter never decreases across any `execute` call
(monotone, no reset mid-session); concretely, three denied commands
make `denials_exceeded` true, and a fourth denied command issued after
that point is still reported `denied` (with the limit flag) and still
counted, reaching 4. -/
theorem C8_denials_monotone :
    (∀ (eff : Effects) (allowed : List Str) (nm : Str) (args : RawArgs)
        (sm sm2 : StateManager) (r : ExecResult),
        execute eff allowed nm args (some sm) = .ok (r, some sm2) →
        sm.denial_count ≤ sm2.denial_count)
    ∧ (denyIter 3).denial_count = 3
    ∧ denials_exceeded (denyIter 3) = true
    ∧ (execute noEffects allowLs (("run_command").data) rmArgs (some (denyIter 3))).map
        (fun p => (p.1.status, p.1.denied_limit, p.2.map (fun s => s.denial_count)))
      = .ok (("denied").data, true, some 4)
    ∧ (denyIter 4).denial_count = 4 := by
  refine ⟨?_, by decide, by decide, by rfl, by decide⟩
  intro eff allowed nm args sm sm2 r h
  unfold execute at h
  split at h
  · simp only [Except.ok.injEq, Prod.mk.injEq, Option.some.injEq] at h
    rw [← h.2]
  · split at h
    · exact absurd h (by simp)
    · rename_i a heq
      cases hr : runHandler eff allowed nm a with
      | ok out =>
        rw [hr] at h
        simp only [finishExecute, Option.map, Except.ok.injEq, Prod.mk.injEq,
          Option.some.injEq] at h
        rw [← h.2]
        exact le_refl _
      | error e =>
        cases e with
        | toolError m =>
          rw [hr] at h
          simp only [finishExecute, Option.map, Except.ok.injEq, Prod.mk.injEq,
            Option.some.injEq] at h
          rw [← h.2]
          exact le_refl _
        | attributeError =>
          rw [hr] at h
          exact absurd h (by simp [finishExecute])
        | toolDenied m =>
          rw [hr] at h
          simp only [finishExecute, deniedFinish] at h
          split at h <;>
            simp only [Except.ok.injEq, Prod.mk.injEq, Option.some.injEq] at h <;>
            rw [← h.2] <;>
            exact Nat.le_succ _

/-- C8 witness: applying the monotonicity part at a concrete call (an
unknown tool name, which leaves the state untouched). -/
theorem C8_witness :
    execute noEffects ALLOWED_COMMANDS (("nope").data) (.rdict []) (some initialState)
      = .ok (⟨("error").data, ("Unknown tool ").data ++ [sqChar] ++ ("nope").data ++ [sqChar],
          false⟩, some initialState)
    ∧ initialState.denial_count ≤ initialState.denial_count :=
  ⟨by rfl,
    C8_denials_monotone.1 noEffects ALLOWED_COMMANDS (("nope").data) (.rdict [])
      initialState initialState _ (by rfl)⟩

/-- Joining pipeline segments back together with the pipe character. -/
def joinPipe : List Str → Str
  | [] => []
  | [x] => x
  | x :: y :: t => x ++ '|' :: joinPipe (y :: t)

/-- `joinPipe` on a cons with a non-empty tail. -/
lemma joinPipe_cons (x : Str) (l : List Str) (h : l ≠ []) :
    joinPipe (x :: l) = x ++ '|' :: joinPipe l := by
  cases l with
  | nil => exact absurd rfl h
  | cons y t => rfl

/-- Splitting one segment into two at a pipe preserves the join. -/
lemma joinPipe_split_step (xs : List Str) (a b : Str) :
    joinPipe (xs ++ [a] ++ [b]) = joinPipe (xs ++ [a ++ '|' :: b]) := by
  induction xs with
  | nil => rfl
  | cons x xs ih =>
    cases xs with
    | nil => rfl
    | cons y t =>
      simp only [List.cons_append]
      rw [joinPipe_cons x _ (by simp), joinPipe_cons x _ (by simp)]
      simp only [List.cons_append] at ih
      rw [ih]

/-- Invariant of the splitting loop: joining the produced segments with
pipes restores the pending segments, the current segment and the
remaining input. -/
lemma splitPipeAux_join (s : Str) :
    ∀ (inS inD : Bool) (prev : Option Char) (cur : Str) (segs : List Str),
    joinPipe (splitPipeAux s inS inD prev cur segs) = joinPipe (segs ++ [cur ++ s]) := by
  induction s with
  | nil =>
    intro inS inD prev cur segs
    simp [splitPipeAux]
  | cons c rest ih =>
    intro inS inD prev cur segs
    unfold splitPipeAux
    by_cases h0 : prev ≠ some bsChar
    · rw [if_pos h0]
      by_cases h1 : c = sqChar ∧ ¬ inD
      · rw [if_pos h1, ih]
        simp
      · rw [if_neg h1]
        by_cases h2 : c = dqChar ∧ ¬ inS
        · rw [if_pos h2, ih]
          simp
        · rw [if_neg h2]
          by_cases h3 : c = '|' ∧ ¬ inS ∧ ¬ inD
          · rw [if_pos h3, ih, h3.1]
            simpa using joinPipe_split_step segs cur rest
          · rw [if_neg h3, ih]
            simp
    · rw [if_neg h0, ih]
      simp

/-- C4: the pipeline splitter divides only at pipe characters - joining
the segments back with `|` restores the original string exactly for
every command - and the split points respect quoting and escaping:
`grep -E "a|b" file.txt` stays one segment (quoted pipe), a
backslash-escaped pipe stays one segment, and `ls | grep foo` passes
validation, both with the shipped empty allowlist and with an allowlist
containing `ls` and `grep`. -/
theorem C4_pipe_splitting :
    (∀ s : Str, joinPipe (split_pipe_commands s) = s)
    ∧ split_pipe_commands (("grep -E \"a|b\" file.txt").data)
        = [("grep -E \"a|b\" file.txt").data]
    ∧ split_pipe_commands (("a\\|b").data) = [("a\\|b").data]
    ∧ validate_command ALLOWED_COMMANDS (("ls | grep foo").data) = .ok ()
    ∧ validate_command [("ls").data, ("grep").data] (("ls | grep foo").data) = .ok () := by
  refine ⟨?_, by decide, by decide, by rfl, by rfl⟩
  intro s
  have h := splitPipeAux_join s false false none [] []
  simpa [split_pipe_commands, joinPipe] using h

/-- Scan for a semicolon whose preceding character is not a backslash
(the `(?<!\\);` alternative of the dangerous pattern). -/
def semiAux : Option Char → Str → Bool
  | _, [] => false
  | prev, c :: rest =>
    if c = ';' ∧ prev ≠ some bsChar then true else semiAux (some c) rest

/-- Scan for two adjacent given characters. -/
def pairScan (a b : Char) : Str → Bool
  | [] => false
  | c :: rest => if c = a ∧ rest.head? = some b then true else pairScan a b rest

/-- Scan for a single given character. -/
def charScan (a : Char) : Str → Bool
  | [] => false
  | c :: rest => if c = a then true else charScan a rest

/-- The dangerous-pattern scan is the disjunction of the four
per-alternative scans. -/
lemma dangerousAux_split (s : Str) : ∀ prev : Option Char,
    dangerousAux prev s
      = (semiAux prev s || pairScan '&' '&' s || charScan btChar s || pairScan '$' '(' s) := by
  induction s with
  | nil => intro prev; rfl
  | cons c rest ih =>
    intro prev
    simp only [dangerousAux, semiAux, pairScan, charScan]
    by_cases h1 : c = ';' ∧ prev ≠ some bsChar
    · simp [h1]
    · rw [if_neg h1, if_neg h1]
      by_cases h2 : c = '&' ∧ rest.head? = some '&'
      · simp [h2]
      · rw [if_neg h2, if_neg h2]
        by_cases h3 : c = btChar
        · simp [h3]
        · rw [if_neg h3, if_neg h3]
          by_cases h4 : c = '$' ∧ rest.head? = some '('
          · simp [h4]
          · rw [if_neg h4, if_neg h4]
            exact ih (some c)

/-- `pairScan` finds exactly the two-character occurrences. -/
lemma pairScan_iff (a b : Char) (s : Str) :
    pairScan a b s = true ↔ ∃ l1 l2 : Str, s = l1 ++ a :: b :: l2 := by
  induction s with
  | nil =>
    simp only [pairScan]
    constructor
    · intro h
      exact absurd h (by simp)
    · rintro ⟨l1, l2, h⟩
      exact absurd h (by simp)
  | cons c rest ih =>
    simp only [pairScan]
    split
    · rename_i h
      obtain ⟨rest2, hrest⟩ : ∃ r, rest = b :: r := by
        cases rest with
        | nil => exact absurd h.2 (by simp)
        | cons d r =>
          have hd : d = b := by simpa using h.2
          exact ⟨r, by rw [hd]⟩
      constructor
      · intro _
        exact ⟨[], rest2, by simp [h.1, hrest]⟩
      · intro _
        rfl
    · rename_i h
      rw [ih]
      constructor
      · rintro ⟨l1, l2, rfl⟩
        exact ⟨c :: l1, l2, rfl⟩
      · rintro ⟨l1, l2, heq⟩
        cases l1 with
        | nil =>
          simp only [List.nil_append, List.cons.injEq] at heq
          exact absurd ⟨heq.1, by simp [heq.2]⟩ h
        | cons x l1 =>
          simp only [List.cons_append, List.cons.injEq] at heq
          exact ⟨l1, l2, heq.2⟩

/-- `charScan` finds exactly the single-character occurrences. -/
lemma charScan_iff (a : Char) (s : Str) :
    charScan a s = true ↔ ∃ l1 l2 : Str, s = l1 ++ a :: l2 := by
  induction s with
  | nil =>
    simp only [charScan]
    constructor
    · intro h
      exact absurd h (by simp)
    · rintro ⟨l1, l2, h⟩
      exact absurd h (by simp)
  | cons c rest ih =>
    simp only [charScan]
    split
    · rename_i h
      constructor
      · intro _
        exact ⟨[], rest, by simp [h]⟩
      · intro _
        rfl
    · rename_i h
      rw [ih]
      constructor
      · rintro ⟨l1, l2, rfl⟩
        exact ⟨c :: l1, l2, rfl⟩
      · rintro ⟨l1, l2, heq⟩
        cases l1 with
        | nil =>
          simp only [List.nil_append, List.cons.injEq] at heq
          exact absurd heq.1 h
        | cons x l1 =>
          simp only [List.cons_append, List.cons.injEq] at heq
          exact ⟨l1, l2, heq.2⟩

/-- The character preceding a position: the last character of the part
already consumed, or the starting `prev` when nothing was consumed. -/
def lastOr (prev : Option Char) (l : Str) : Option Char :=
  l.foldl (fun _ c => some c) prev

/-- `lastOr` peels a leading character. -/
lemma lastOr_cons (prev : Option Char) (c : Char) (l : Str) :
    lastOr prev (c :: l) = lastOr (some c) l := rfl

/-- On a non-empty list, `lastOr` is the last element. -/
lemma lastOr_ne_nil (l : Str) : ∀ prev : Option Char, l ≠ [] → lastOr prev l = l.getLast? := by
  induction l with
  | nil =>
    intro prev h
    exact absurd rfl h
  | cons c t ih =>
    intro prev h
    rw [lastOr_cons]
    cases t with
    | nil => rfl
    | cons d r =>
      rw [List.getLast?_cons_cons]
      exact ih (some c) (by simp)

/-- `semiAux` finds exactly the semicolons whose preceding character
(or the starting `prev` at position 0) is not a backslash. -/
lemma semiAux_iff (s : Str) : ∀ prev : Option Char,
    semiAux prev s = true ↔
      ∃ l1 l2 : Str, s = l1 ++ ';' :: l2 ∧ lastOr prev l1 ≠ some bsChar := by
  induction s with
  | nil =>
    intro prev
    simp only [semiAux]
    constructor
    · intro h
      exact absurd h (by simp)
    · rintro ⟨l1, l2, h, -⟩
      exact absurd h (by simp)
  | cons c rest ih =>
    intro prev
    simp only [semiAux]
    split
    · rename_i h
      constructor
      · intro _
        exact ⟨[], rest, by simp [h.1], h.2⟩
      · intro _
        rfl
    · rename_i h
      rw [ih (some c)]
      constructor
      · rintro ⟨l1, l2, rfl, hesc⟩
        exact ⟨c :: l1, l2, rfl, by rwa [lastOr_cons]⟩
      · rintro ⟨l1, l2, heq, hesc⟩
        cases l1 with
        | nil =>
          simp only [List.nil_append, List.cons.injEq] at heq
          exact absurd ⟨heq.1, hesc⟩ h
        | cons x l1 =>
          simp only [List.cons_append, List.cons.injEq] at heq
          rw [← heq.1, lastOr_cons] at hesc
          exact ⟨l1, l2, heq.2, hesc⟩

/-- `lastOr none` is just `getLast?` as far as being a backslash goes. -/
lemma lastOr_none_ne (l : Str) :
    lastOr none l ≠ some bsChar ↔ l.getLast? ≠ some bsChar := by
  cases l with
  | nil => exact Iff.rfl
  | cons c t => rw [lastOr_ne_nil (c :: t) none (by simp)]

/-- The four dangerous operators, from the claim's wording. -/
def opsC3 : List Str := [[';'], ['&', '&'], [btChar], ['$', '(']]

/-- The claim's reading of the dangerous pattern: some operator occurs
at a position that is not backslash-escaped (the escape exemption
applied to ALL four operators). -/
def claimC3 (s : Str) : Bool :=
  (List.range s.length).any (fun i =>
    (opsC3.any (fun op => op.isPrefixOf (s.drop i)))
      && !(decide (0 < i) && (s.get? (i - 1) == some bsChar)))

/-- C3 counterexample: the string `a\BACKTICKb` (a backslash-escaped
backtick, no other operator) is rejected by `_DANGEROUS_PATTERN` - the
regex lookbehind protects only the semicolon - while the claim says a
backslash-escaped occurrence is not grounds for rejection. -/
theorem C3_counterexample :
    dangerous_search ['a', bsChar, btChar, 'b'] = true
    ∧ claimC3 ['a', bsChar, btChar, 'b'] = false := by
  exact ⟨by decide, by decide⟩

/-- C3 (amended): the validator rejects for chaining exactly when the
command contains a semicolon not preceded by a backslash, or contains
`&&`, a backtick, or `$(` anywhere - the backslash-escape exemption
applies only to the semicolon; and `ls; rm -rf /` is rejected with the
chaining `ToolError` regardless of the allowlist. -/
theorem C3_dangerous_characterization :
    (∀ s : Str, dangerous_search s = true ↔
      ((∃ l1 l2 : Str, s = l1 ++ ';' :: l2 ∧ l1.getLast? ≠ some bsChar)
        ∨ (∃ l1 l2 : Str, s = l1 ++ '&' :: '&' :: l2)
        ∨ (∃ l1 l2 : Str, s = l1 ++ btChar :: l2)
        ∨ (∃ l1 l2 : Str, s = l1 ++ '$' :: '(' :: l2)))
    ∧ (∀ allowed : List Str,
        validate_command allowed (("ls; rm -rf /").data) = .error (.toolError chainingMsg)) := by
  constructor
  · intro s
    unfold dangerous_search
    rw [dangerousAux_split]
    simp only [Bool.or_eq_true]
    rw [semiAux_iff s none, pairScan_iff, charScan_iff, pairScan_iff]
    constructor
    · rintro (((h | h) | h) | h)
      · obtain ⟨l1, l2, heq, hesc⟩ := h
        exact Or.inl ⟨l1, l2, heq, (lastOr_none_ne l1).mp hesc⟩
      · exact Or.inr (Or.inl h)
      · exact Or.inr (Or.inr (Or.inl h))
      · exact Or.inr (Or.inr (Or.inr h))
    · rintro (h | h | h | h)
      · obtain ⟨l1, l2, heq, hesc⟩ := h
        exact Or.inl (Or.inl (Or.inl ⟨l1, l2, heq, (lastOr_none_ne l1).mpr hesc⟩))
      · exact Or.inl (Or.inl (Or.inr h))
      · exact Or.inl (Or.inr h)
      · exact Or.inr h
  · intro allowed
    unfold validate_command
    rw [if_pos (by decide : dangerous_search (("ls; rm -rf /").data) = true)]

/-- The claim's token formula: minimum 1 per message content, with no
special case for empty content (the source's `approx_token_count`
returns 0 for empty text instead). -/
def claimTokenCount (cm : ContextManager) : Nat :=
  ((cm.messages.filter (fun m => decide (m.role ≠ Role.system))).map
    (fun m => max 1 (m.content.length / 4))).sum

/-- A tool-role message with empty content. -/
def emptyToolMsg : Message := ⟨.tool, [], none, none, none⟩

/-- The `ContextManager(20, 1, 5)` state (token limit 492) filled with
492 empty tool messages. -/
def cmC5 : ContextManager := { defaultCM1 with messages := List.replicate 492 emptyToolMsg }

set_option maxRecDepth 8192 in
/-- C5 counterexample: on a constructor-built manager holding 492
empty-content tool messages, the claim's token formula (minimum 1 per
message content) meets the 492-token limit, so the claim says
compaction is due - but the code counts empty content as 0 tokens and
compaction is not due. -/
theorem C5_counterexample :
    mkContextManager 20 1 5 = .ok defaultCM1
    ∧ needs_compaction cmC5 = false
    ∧ cmC5.token_limit ≤ claimTokenCount cmC5 := by
  refine ⟨by rfl, by decide, by decide⟩

/-- `k` alternating user/assistant messages, empty content, no tool
calls. -/
def alternatingMsgs : Nat → List Message
  | 0 => []
  | n + 1 =>
    alternatingMsgs n ++ [⟨if n % 2 = 0 then .user else .assistant, [], none, none, none⟩]

/-- Every alternating message counts as a chat turn. -/
lemma alternating_chatP (n : Nat) : (alternatingMsgs n).countP countsAsChat = n := by
  induction n with
  | zero => rfl
  | succ n ih =>
    unfold alternatingMsgs
    rw [List.countP_append, ih]
    by_cases h : n % 2 = 0 <;> simp [h, List.countP_cons, countsAsChat, hasToolCalls]

/-- The alternating messages carry zero approximate tokens. -/
lemma alternating_tokens (n : Nat) :
    (((alternatingMsgs n).filter (fun m => decide (m.role ≠ Role.system))).map
      (fun m => approx_token_count m.content)).sum = 0 := by
  induction n with
  | zero => rfl
  | succ n ih =>
    unfold alternatingMsgs
    rw [List.filter_append, List.map_append, List.sum_append, ih]
    by_cases h : n % 2 = 0 <;> simp [h, approx_token_count]

/-- C5 (amended): compaction is due exactly when the chat count (not
system, not tool, no tool calls) strictly exceeds `max_turns` or the
approximate token count (4 characters per token, minimum 1 per
NON-EMPTY message content, 0 for empty content) over non-system
messages meets the construction-time token limit; and for every valid
constructor argument triple, appending N+1 short alternating
user/assistant tool-call-free turns makes compaction due while
appending exactly N does not. -/
theorem C5_compaction_trigger :
    (∀ cm : ContextManager, needs_compaction cm = true ↔
      (cm.max_turns < chat_count cm ∨ cm.token_limit ≤ token_count cm))
    ∧ (∀ N t kr : Int, 1 ≤ kr → kr < N → 1 ≤ t →
        ∃ cm0, mkContextManager N t kr = .ok cm0
          ∧ needs_compaction { cm0 with messages := alternatingMsgs (N.toNat + 1) } = true
          ∧ needs_compaction { cm0 with messages := alternatingMsgs N.toNat } = false) := by
  constructor
  · intro cm
    unfold needs_compaction
    simp
  · intro N t kr hkr hkrN ht
    have hN : (1 : Int) ≤ N := by omega
    refine ⟨⟨N.toNat, kr.toNat,
      (t + (approx_token_count SYSTEM_PROMPT : Int) + 150).toNat, [], []⟩, ?_, ?_, ?_⟩
    · unfold mkContextManager
      rw [if_pos hN, if_pos hkr, if_pos ht, if_neg (by omega : ¬ N ≤ kr)]
    · unfold needs_compaction
      simp only [chat_count, alternating_chatP]
      simp [Nat.lt_succ_self]
    · unfold needs_compaction
      simp only [chat_count, alternating_chatP, token_count, alternating_tokens]
      simp only [Bool.or_eq_false_iff, decide_eq_false_iff_not]
      constructor
      · omega
      · omega

/-- C5 witness: the amended trigger at `(N, t, kr) = (3, 1, 1)`. -/
theorem C5_witness :
    (1 : Int) ≤ 1 ∧ (1 : Int) < 3 ∧ (1 : Int) ≤ 1 ∧
    ∃ cm0, mkContextManager 3 1 1 = .ok cm0
      ∧ needs_compaction { cm0 with messages := alternatingMsgs ((3 : Int).toNat + 1) } = true
      ∧ needs_compaction { cm0 with messages := alternatingMsgs (3 : Int).toNat } = false :=
  ⟨by norm_num, by norm_num, by norm_num,
    C5_compaction_trigger.2 3 1 1 (by norm_num) (by norm_num) (by norm_num)⟩

/-- The backward walk returns the last `limit - cnt` elements when
every element counts as a chat turn. -/
lemma recentWalk_all (limit : Nat) :
    ∀ (r : List Message), (∀ m ∈ r, isChatTurn m = true) →
    ∀ (cnt : Nat) (acc : List Message), cnt < limit →
    recentWalk limit r cnt acc = (r.take (limit - cnt)).reverse ++ acc := by
  intro r
  induction r with
  | nil =>
    intro _ cnt acc _
    simp [recentWalk]
  | cons m rest ih =>
    intro hq cnt acc hcnt
    have hm : isChatTurn m = true := hq m (by simp)
    simp only [recentWalk]
    rw [if_pos hm]
    by_cases hl : limit ≤ cnt + 1
    · rw [if_pos hl]
      have h1 : limit - cnt = 1 := by omega
      simp [h1]
    · rw [if_neg hl]
      rw [ih (fun x hx => hq x (by simp [hx])) (cnt + 1) (m :: acc) (by omega)]
      have h1 : limit - cnt = (limit - (cnt + 1)) + 1 := by omega
      rw [h1]
      simp [List.take_succ_cons]

/-- With every non-system message a chat turn, `recent_messages` is the
suffix of the last `limit` non-system messages, in document order. -/
lemma recent_messages_all (cm : ContextManager) (limit : Nat) (hl : 1 ≤ limit)
    (hq : ∀ m ∈ cm.messages, m.role ≠ Role.system → isChatTurn m = true) :
    recent_messages cm limit =
      (cm.messages.filter (fun m => decide (m.role ≠ Role.system))).drop
        ((cm.messages.filter (fun m => decide (m.role ≠ Role.system))).length - limit) := by
  have hq2 : ∀ m ∈ (cm.messages.filter (fun m => decide (m.role ≠ Role.system))).reverse,
      isChatTurn m = true := by
    intro m hm
    rw [List.mem_reverse] at hm
    exact hq m (List.mem_of_mem_filter hm) (by simpa using List.of_mem_filter hm)
  unfold recent_messages
  rw [recentWalk_all limit _ hq2 0 [] (by omega), Nat.sub_zero, List.append_nil]
  exact (List.rtake_eq_reverse_take_reverse _ limit).symm

/-- The walk's output contains at most `limit - cnt` chat turns on top
of the accumulator's. -/
lemma recentWalk_turns_le (limit : Nat) :
    ∀ (r : List Message) (cnt : Nat) (acc : List Message), cnt < limit →
    (recentWalk limit r cnt acc).countP isChatTurn ≤ (limit - cnt) + acc.countP isChatTurn := by
  intro r
  induction r with
  | nil =>
    intro cnt acc _
    simp only [recentWalk]
    omega
  | cons m rest ih =>
    intro cnt acc hcnt
    simp only [recentWalk]
    by_cases hm : isChatTurn m = true
    · rw [if_pos hm]
      by_cases hl : limit ≤ cnt + 1
      · rw [if_pos hl]
        simp only [List.countP_cons, hm, if_pos]
        omega
      · rw [if_neg hl]
        have h := ih (cnt + 1) (m :: acc) (by omega)
        simp only [List.countP_cons, hm, if_pos] at h
        omega
    · rw [if_neg hm]
      have hm2 : isChatTurn m = false := by simpa using hm
      have h := ih cnt (m :: acc) hcnt
      simp only [List.countP_cons, hm2] at h
      simpa using h

/-- A message counted by the compaction chat count is a chat turn. -/
lemma countsAsChat_imp (m : Message) (h : countsAsChat m = true) : isChatTurn m = true := by
  unfold countsAsChat at h
  simp only [Bool.and_eq_true, decide_eq_true_eq] at h
  obtain ⟨⟨h1, h2⟩, h3⟩ := h
  unfold isChatTurn
  cases hr : m.role with
  | user => simp
  | assistant => simp [h3]
  | system => exact absurd hr h1
  | tool => exact absurd hr h2

/-- C6 (amended): after a compaction whose summarizer returned non-empty
text, on a log whose non-system messages are all tool-call-free
user/assistant turns, the log equals exactly the original non-summary
system messages, then one new summary-marker system message, then the
last `keep_recent` non-system messages in document order; afterwards
the chat count is at most `keep_recent`, so with
`keep_recent < max_turns` the TURN-COUNT trigger is not due again - the
token trigger, however, can still fire (see the counterexample). -/
theorem C6_compaction_shape (cm : ContextManager) (f : List Message → Str × Option Str)
    (hkeep : 1 ≤ cm.keep_recent)
    (hq : ∀ m ∈ cm.messages, m.role ≠ Role.system → isChatTurn m = true)
    (hdue : needs_compaction cm = true)
    (htext : (f cm.messages).1 ≠ []) :
    (maybe_summarize cm (some f)).messages
      = cm.messages.filter (fun m => decide (m.role = Role.system) && !startsWithSummary m)
        ++ [⟨Role.system, summaryMarker ++ '\n' :: (f cm.messages).1, none, none, none⟩]
        ++ (cm.messages.filter (fun m => decide (m.role ≠ Role.system))).drop
            ((cm.messages.filter (fun m => decide (m.role ≠ Role.system))).length
              - cm.keep_recent)
    ∧ chat_count (maybe_summarize cm (some f)) ≤ cm.keep_recent
    ∧ (cm.keep_recent < cm.max_turns →
        ¬ ((maybe_summarize cm (some f)).max_turns
            < chat_count (maybe_summarize cm (some f)))) := by
  have hms : maybe_summarize cm (some f)
      = { cm with
          summary := (f cm.messages).1,
          messages := cm.messages.filter
              (fun m => decide (m.role = Role.system) && !startsWithSummary m)
            ++ [⟨Role.system, summaryMarker ++ '\n' :: (f cm.messages).1, none, none, none⟩]
            ++ recent_messages cm cm.keep_recent } := by
    simp only [maybe_summarize]
    rw [if_pos hdue, if_neg htext]
  have hsys : (cm.messages.filter
      (fun m => decide (m.role = Role.system) && !startsWithSummary m)).countP
        countsAsChat = 0 := by
    rw [List.countP_eq_zero]
    intro m hm
    have h := List.of_mem_filter hm
    simp only [Bool.and_eq_true, decide_eq_true_eq] at h
    simp [countsAsChat, h.1]
  have hmid : ([(⟨Role.system, summaryMarker ++ '\n' :: (f cm.messages).1, none, none, none⟩
      : Message)]).countP countsAsChat = 0 := by
    simp [List.countP_cons, countsAsChat]
  have hrec : (recent_messages cm cm.keep_recent).countP countsAsChat ≤ cm.keep_recent := by
    have h1 : (recent_messages cm cm.keep_recent).countP countsAsChat
        ≤ (recent_messages cm cm.keep_recent).countP isChatTurn :=
      List.countP_mono_left (fun m _ h => countsAsChat_imp m h)
    have h2 := recentWalk_turns_le cm.keep_recent
      ((cm.messages.filter (fun m => decide (m.role ≠ Role.system))).reverse) 0 []
      (by omega)
    simp only [List.countP_nil, Nat.sub_zero, Nat.add_zero] at h2
    exact le_trans h1 h2
  have hcount : chat_count (maybe_summarize cm (some f)) ≤ cm.keep_recent := by
    rw [hms]
    unfold chat_count
    simp only [List.countP_append, hsys, hmid]
    simpa using hrec
  refine ⟨?_, hcount, ?_⟩
  · rw [hms]
    simp only
    rw [recent_messages_all cm cm.keep_recent hkeep hq]
  · intro hlt
    rw [hms]
    simp only
    rw [← hms]
    omega

/-- `k` alternating tool-call-free user/assistant turns, each with an
8-character (2-token) content. -/
def altChatty : Nat → List Message
  | 0 => []
  | n + 1 =>
    altChatty n ++ [⟨if n % 2 = 0 then .user else .assistant,
      ('a' :: 'b' :: 'c' :: 'd' :: 'e' :: 'f' :: 'g' :: 'h' :: []), none, none, none⟩]

/-- The context manager produced by `ContextManager(401, 1, 400)`. -/
def cmC6base : ContextManager := ⟨401, 400, 492, [], []⟩

/-- `cmC6base` holding 402 chatty alternating turns (804 approximate
tokens, over the 492-token limit). -/
def cmC6 : ContextManager := { cmC6base with messages := altChatty 402 }

/-- A summarizer that always returns the non-empty text `S`. -/
def sumF : List Message → Str × Option Str := fun _ => (['S'], none)

set_option maxRecDepth 8192 in
/-- C6 counterexample: with `keep_recent = 400 < 401 = max_turns` and an
alternating tool-call-free log whose last 400 turns alone carry 800
tokens (limit 492), compaction (summarizer returns non-empty text)
keeps those 400 messages, and `needs_compaction` is immediately true
again through the token trigger - the claim asserted it is false. -/
theorem C6_counterexample :
    mkContextManager 401 1 400 = .ok cmC6base
    ∧ cmC6.keep_recent < cmC6.max_turns
    ∧ cmC6.messages.all (fun m => !decide (m.role ≠ Role.system) || isChatTurn m) = true
    ∧ needs_compaction cmC6 = true
    ∧ (sumF cmC6.messages).1 ≠ []
    ∧ needs_compaction (maybe_summarize cmC6 (some sumF)) = true := by
  refine ⟨by rfl, by decide, by decide, by decide, by decide, by decide⟩

/-- A small concrete scenario for the amended compaction shape:
`max_turns = 2`, `keep_recent = 1`, three short alternating turns. -/
def cmC6w : ContextManager :=
  ⟨2, 1, 200,
    [⟨.user, ['a'], none, none, none⟩, ⟨.assistant, ['b'], none, none, none⟩,
     ⟨.user, ['c'], none, none, none⟩], []⟩

/-- C6 witness: the amended theorem applied to the concrete scenario. -/
theorem C6_witness :
    chat_count (maybe_summarize cmC6w (some sumF)) ≤ cmC6w.keep_recent
    ∧ ¬ ((maybe_summarize cmC6w (some sumF)).max_turns
        < chat_count (maybe_summarize cmC6w (some sumF))) :=
  ⟨(C6_compaction_shape cmC6w sumF (by decide) (by decide) (by decide) (by decide)).2.1,
   (C6_compaction_shape cmC6w sumF (by decide) (by decide) (by decide) (by decide)).2.2
      (by decide)⟩

/-- A user message whose content starts with the summary marker. -/
def fakeSummaryUserMsg : Message := ⟨.user, summaryMarker ++ (" fake").data, none, none, none⟩

/-- The default manager after adding the fake user message twice. -/
def cmC10 : ContextManager :=
  { defaultCM with messages := [fakeSummaryUserMsg, fakeSummaryUserMsg] }

set_option maxRecDepth 8192 in
/-- C10 counterexample: two `add` calls with a user message whose
content starts with the summary marker put two marker-prefixed
messages into the SUMMARY_PLUS_RECENT slice - the stale-summary filter
only guards system messages, so the claim's bound of one fails. -/
theorem C10_counterexample :
    mkContextManager 20 20000 5 = .ok defaultCM
    ∧ add_message defaultCM (.renum .user) (some (summaryMarker ++ (" fake").data))
        none none none
      = .ok (fakeSummaryUserMsg, { defaultCM with messages := [fakeSummaryUserMsg] })
    ∧ add_message { defaultCM with messages := [fakeSummaryUserMsg] } (.renum .user)
        (some (summaryMarker ++ (" fake").data)) none none none
      = .ok (fakeSummaryUserMsg, cmC10)
    ∧ (summary_plus_recent cmC10 5).countP startsWithSummary = 2 := by
  refine ⟨by rfl, by rfl, by rfl, by decide⟩

/-- Elements of the walk's output come from the input or the
accumulator. -/
lemma recentWalk_mem (limit : Nat) :
    ∀ (r : List Message) (cnt : Nat) (acc : List Message) (x : Message),
    x ∈ recentWalk limit r cnt acc → x ∈ r ∨ x ∈ acc := by
  intro r
  induction r with
  | nil =>
    intro cnt acc x hx
    exact Or.inr (by simpa [recentWalk] using hx)
  | cons m rest ih =>
    intro cnt acc x hx
    simp only [recentWalk] at hx
    by_cases hm : isChatTurn m = true
    · rw [if_pos hm] at hx
      by_cases hl : limit ≤ cnt + 1
      · rw [if_pos hl] at hx
        simp only [List.mem_cons] at hx
        rcases hx with h | h
        · exact Or.inl (by simp [h])
        · exact Or.inr h
      · rw [if_neg hl] at hx
        rcases ih (cnt + 1) (m :: acc) x hx with h | h
        · exact Or.inl (by simp [h])
        · simp only [List.mem_cons] at h
          rcases h with h | h
          · exact Or.inl (by simp [h])
          · exact Or.inr h
    · rw [if_neg hm] at hx
      rcases ih cnt (m :: acc) x hx with h | h
      · exact Or.inl (by simp [h])
      · simp only [List.mem_cons] at h
        rcases h with h | h
        · exact Or.inl (by simp [h])
        · exact Or.inr h

/-- C10 (amended): for every manager state and window, the
SUMMARY_PLUS_RECENT slice contains at most one SYSTEM message whose
content starts with the summary marker (non-system messages that
imitate the marker are not filtered and may add more). -/
theorem C10_at_most_one_summary (cm : ContextManager) (limit : Nat) :
    (summary_plus_recent cm limit).countP
      (fun m => decide (m.role = Role.system) && startsWithSummary m) ≤ 1 := by
  have hsys : (cm.messages.filter
      (fun m => decide (m.role = Role.system) && !startsWithSummary m)).countP
        (fun m => decide (m.role = Role.system) && startsWithSummary m) = 0 := by
    rw [List.countP_eq_zero]
    intro m hm
    have h := List.of_mem_filter hm
    simp only [Bool.and_eq_true, decide_eq_true_eq, Bool.not_eq_true'] at h
    simp [h.2]
  have hrec : (recent_messages cm limit).countP
      (fun m => decide (m.role = Role.system) && startsWithSummary m) = 0 := by
    rw [List.countP_eq_zero]
    intro m hm
    unfold recent_messages at hm
    rcases recentWalk_mem limit _ 0 [] m hm with h | h
    · rw [List.mem_reverse] at h
      have h2 := List.of_mem_filter h
      simp only [decide_eq_true_eq] at h2
      simp [h2]
    · exact absurd h (by simp)
  simp only [summary_plus_recent]
  by_cases hsum : cm.summary = []
  · rw [if_pos hsum, List.countP_append, hsys, hrec]
    omega
  · rw [if_neg hsum, List.countP_append, List.countP_append, hsys, hrec]
    simp only [List.countP_cons, List.countP_nil]
    split <;> omega

end TinyAgent
